import Mathlib

/-!
# Verification of the Stately Machine engine

Shallow embedding of `src/main.ts` (class `StatelyMachine<T, C>`) and
`src/const.ts` of the `@appsweet-co/stately-machine` package, together with
proofs about the transition-validation algorithm, the state/context mutation
protocol and the event-notification contract.

States are an arbitrary type `T` with decidable equality (JavaScript `===`
on enum-like values).  The context `C extends Record<string, unknown>` is
modelled as an association list from string keys to values of a type `V`;
object spread `{...a, ...b}` is modelled by `mergeCtx`, and property lookup
by `getKey`.
-/

namespace Stately

/-- A JavaScript object context: ordered key/value pairs (own enumerable
properties in insertion order). -/
abbrev Ctx (V : Type) := List (String × V)

/-- Property lookup `obj[k]`: value of the first (in a well-formed object, the
only) entry with key `k`. -/
def getKey {V : Type} (c : Ctx V) (k : String) : Option V :=
  (c.find? (fun kv => decide (kv.1 = k))).map (fun kv => kv.2)

/-- Whether the object has an own property named `k`. -/
def hasKey {V : Type} (c : Ctx V) (k : String) : Bool :=
  c.any (fun kv => decide (kv.1 = k))

/-- One entry of `c` after spreading `p` over it: the value is replaced by
`p`'s when `p` has the same key. -/
def override {V : Type} (p : Ctx V) (kv : String × V) : String × V :=
  match getKey p kv.1 with
  | some v => (kv.1, v)
  | none => kv

/-- JavaScript object spread `{...c, ...p}`: the keys of `c` in order, each
taking the value from `p` when `p` also has the key, followed by the keys of
`p` that `c` does not have, in order. -/
def mergeCtx {V : Type} (c p : Ctx V) : Ctx V :=
  c.map (override p) ++ p.filter (fun kv => !(hasKey c kv.1))

/-- Model of `Array.prototype.includes` with `===` comparison (SameValueZero on
enum-like values). -/
def includes {T : Type} [DecidableEq T] (xs : List T) (x : T) : Bool :=
  xs.any (fun y => decide (y = x))

/-- Embeds `interface StatelyTransition<T> { from: readonly T[]; to: readonly T[] }`
(src/const.ts). -/
structure StatelyTransition (T : Type) where
  «from» : List T
  «to» : List T

/-- Embeds `type StatelyErrorType = 'EMPTY_TRANSITIONS' | 'NO_TRANSITION' | 'SAME_STATE'`
(src/const.ts). -/
inductive StatelyErrorType : Type where
  | EMPTY_TRANSITIONS
  | NO_TRANSITION
  | SAME_STATE
deriving DecidableEq, Repr

/-- Embeds `interface StatelyError<T> { type: StatelyErrorType; from: T; to: T }`
(src/const.ts). -/
structure StatelyError (T : Type) where
  type : StatelyErrorType
  «from» : T
  «to» : T

/-- Embeds `interface StatelySuccess<T, C> { context: C; from: T; to: T }`
(src/const.ts). -/
structure StatelySuccess (T V : Type) where
  context : Ctx V
  «from» : T
  «to» : T

/-- The mutable private fields of a `StatelyMachine<T, C>` instance:
`#context`, `#active` and `#transitions` (src/main.ts).  The two subjects
`#didChange$$` and `#didError$$` hold no event state of their own; the events
published on them are returned explicitly by `go`. -/
structure StatelyMachine (T V : Type) where
  context : Ctx V
  active : T
  transitions : List (StatelyTransition T)

/-- Embeds `constructor(initial: T, context = {} as C)` (src/main.ts): stores the
initial state and context and starts with an empty transition table. -/
def mk {T V : Type} (initial : T) (context : Ctx V := []) : StatelyMachine T V :=
  { context := context, active := initial, transitions := [] }

/-- Embeds `transitions(config)` (src/main.ts): wholesale replacement of the
transition table. -/
def setTransitions {T V : Type} (m : StatelyMachine T V)
    (config : List (StatelyTransition T)) : StatelyMachine T V :=
  { m with transitions := config }

/-- Embeds `#noTransition(state)` (src/main.ts): true when no configured rule whose
`from` includes the active state has `state` in its `to`. -/
def noTransition {T V : Type} [DecidableEq T] (m : StatelyMachine T V)
    (state : T) : Bool :=
  !((m.transitions.filter (fun item => includes item.«from» m.active)).any
      (fun item => includes item.«to» state))

/-- Embeds `#validate(state): Result<T, StatelyErrorType>` (src/main.ts). -/
def validate {T V : Type} [DecidableEq T] (m : StatelyMachine T V)
    (state : T) : Except StatelyErrorType T :=
  if m.transitions.length = 0 then .error .EMPTY_TRANSITIONS
  else if m.active = state then .error .SAME_STATE
  else if noTransition m state then .error .NO_TRANSITION
  else .ok state

/-- Result of one `go` call: the machine afterwards, the events published on
`#didChange$$` and the events published on `#didError$$`, in order. -/
structure GoResult (T V : Type) where
  machine : StatelyMachine T V
  successes : List (StatelySuccess T V)
  errors : List (StatelyError T)

/-- Embeds `go(state: T, context?: Partial<C>)` (src/main.ts).  An absent optional
context argument is the empty partial context `[]` (spreading `undefined`
adds no keys). -/
def go {T V : Type} [DecidableEq T] (m : StatelyMachine T V) (state : T)
    (context : Ctx V := []) : GoResult T V :=
  match validate m state with
  | .error err =>
    { machine := m
      successes := []
      errors := [{ type := err, «from» := m.active, «to» := state }] }
  | .ok ok =>
    let payload : StatelySuccess T V :=
      { context := mergeCtx m.context context, «from» := m.active, «to» := ok }
    { machine := { m with active := payload.«to», context := payload.context }
      successes := [payload]
      errors := [] }

/-- Predicate of `on$(state)` (src/main.ts): `filter(next => next.to === state)`.
Applied to the list of events published on `#didChange$$`, it yields the list
the filtered observable emits. -/
def onFilter {T V : Type} [DecidableEq T] (state : T)
    (events : List (StatelySuccess T V)) : List (StatelySuccess T V) :=
  events.filter (fun next => decide (next.«to» = state))

/-- Predicate of `onError$(type)` (src/main.ts): `filter(next => next.type === type)`. -/
def onErrorFilter {T : Type} (type : StatelyErrorType)
    (events : List (StatelyError T)) : List (StatelyError T) :=
  events.filter (fun next => decide (next.type = type))

/-! ## Subscribers and event dispatch

`#didChange$$` and `#didError$$` are rxjs `Subject`s: a `Subject` keeps a
list of currently registered observers, `next` hands the value synchronously
to each of them in registration order, and nothing is buffered or replayed
to observers that subscribe later.  Subscribers are identified by numbers. -/

/-- Observers currently registered on the success subject and on the error
subject. -/
structure Channels where
  successSubs : List Nat
  errorSubs : List Nat

/-- One delivery of one published event to one subscriber. -/
inductive Delivery (T V : Type) where
  | success (sub : Nat) (e : StatelySuccess T V)
  | error (sub : Nat) (e : StatelyError T)

/-- The subscriber a delivery goes to. -/
def Delivery.sub {T V : Type} : Delivery T V → Nat
  | .success s _ => s
  | .error s _ => s

/-- Operations a client can perform against a machine and its streams. -/
inductive Op (T V : Type) where
  | subscribeSuccess (sub : Nat)
  | subscribeError (sub : Nat)
  | goOp (target : T) (context : Ctx V)

/-- A machine together with the observers registered on its two subjects. -/
structure System (T V : Type) where
  machine : StatelyMachine T V
  channels : Channels

/-- Model of `Subject.next`: each event published by a `go` call is handed to every
observer registered at publish time, in registration order. -/
def publish {T V : Type} (chs : Channels) (r : GoResult T V) :
    List (Delivery T V) :=
  r.successes.flatMap (fun e => chs.successSubs.map (fun s => .success s e)) ++
  r.errors.flatMap (fun e => chs.errorSubs.map (fun s => .error s e))

/-- One step of a client interaction: subscribing registers an observer and
delivers nothing (a plain `Subject` replays no past events); `go` publishes
its one outcome within the step, before returning. -/
def step {T V : Type} [DecidableEq T] (sys : System T V) (op : Op T V) :
    System T V × List (Delivery T V) :=
  match op with
  | .subscribeSuccess s =>
    ({ sys with channels :=
        { sys.channels with successSubs := sys.channels.successSubs ++ [s] } },
      [])
  | .subscribeError s =>
    ({ sys with channels :=
        { sys.channels with errorSubs := sys.channels.errorSubs ++ [s] } },
      [])
  | .goOp t p =>
    let r := go sys.machine t p
    ({ machine := r.machine, channels := sys.channels },
      publish sys.channels r)

/-- The deliveries of each step of a run, in order. -/
def run {T V : Type} [DecidableEq T] (sys : System T V) :
    List (Op T V) → List (List (Delivery T V))
  | [] => []
  | op :: rest => (step sys op).2 :: run (step sys op).1 rest

/-! ## Helper lemmas about contexts -/

theorem getKey_cons_of_eq {V : Type} (kv : String × V) (c : Ctx V) (k : String)
    (h : kv.1 = k) : getKey (kv :: c) k = some kv.2 := by
  rw [getKey, List.find?_cons_of_pos _ (by simpa using h)]
  rfl

theorem getKey_cons_of_ne {V : Type} (kv : String × V) (c : Ctx V) (k : String)
    (h : ¬kv.1 = k) : getKey (kv :: c) k = getKey c k := by
  rw [getKey, List.find?_cons_of_neg _ (by simpa using h)]
  rfl

theorem hasKey_eq_isSome {V : Type} (c : Ctx V) (k : String) :
    hasKey c k = (getKey c k).isSome := by
  induction c with
  | nil => rfl
  | cons kv c ih =>
    by_cases h : kv.1 = k
    · rw [getKey_cons_of_eq kv c k h]
      simp [hasKey, List.any_cons, h]
    · rw [getKey_cons_of_ne kv c k h, ← ih]
      simp [hasKey, List.any_cons, h]

theorem hasKey_cons {V : Type} (kv : String × V) (c : Ctx V) (k : String) :
    hasKey (kv :: c) k = (decide (kv.1 = k) || hasKey c k) := rfl

theorem getKey_append {V : Type} (a b : Ctx V) (k : String) :
    getKey (a ++ b) k = if hasKey a k then getKey a k else getKey b k := by
  induction a with
  | nil => simp [hasKey, getKey]
  | cons kv a ih =>
    by_cases h : kv.1 = k
    · rw [List.cons_append, getKey_cons_of_eq kv (a ++ b) k h,
        getKey_cons_of_eq kv a k h, if_pos (by rw [hasKey_cons]; simp [h])]
    · rw [List.cons_append, getKey_cons_of_ne kv (a ++ b) k h,
        getKey_cons_of_ne kv a k h, ih]
      cases ha : hasKey a k
      · rw [if_neg (by simp), if_neg (by rw [hasKey_cons]; simp [h, ha])]
      · rw [if_pos rfl, if_pos (by rw [hasKey_cons]; simp [ha])]

theorem override_fst {V : Type} (p : Ctx V) (kv : String × V) :
    (override p kv).1 = kv.1 := by
  cases h : getKey p kv.1 <;> simp [override, h]

theorem override_snd_of_some {V : Type} (p : Ctx V) (kv : String × V) {w : V}
    (h : getKey p kv.1 = some w) : (override p kv).2 = w := by
  simp [override, h]

theorem override_snd_of_none {V : Type} (p : Ctx V) (kv : String × V)
    (h : getKey p kv.1 = none) : (override p kv).2 = kv.2 := by
  simp [override, h]

theorem getKey_map_override {V : Type} (c p : Ctx V) (k : String) :
    getKey (c.map (override p)) k =
      (getKey c k).map (fun v => (override p (k, v)).2) := by
  induction c with
  | nil => simp [getKey]
  | cons kv c ih =>
    by_cases h : kv.1 = k
    · rw [List.map_cons, getKey_cons_of_eq _ _ k (by rw [override_fst, h]),
        getKey_cons_of_eq kv c k h]
      show some (override p kv).2 = some ((override p (k, kv.2)).2)
      rw [← h, Prod.mk.eta]
    · rw [List.map_cons, getKey_cons_of_ne _ _ k (by rw [override_fst]; exact h),
        getKey_cons_of_ne kv c k h, ih]

theorem hasKey_map_override {V : Type} (c p : Ctx V) (k : String) :
    hasKey (c.map (override p)) k = hasKey c k := by
  rw [hasKey_eq_isSome, hasKey_eq_isSome, getKey_map_override]
  cases getKey c k <;> rfl

theorem getKey_filter_not_hasKey {V : Type} (c p : Ctx V) (k : String)
    (hc : hasKey c k = false) :
    getKey (p.filter (fun kv => !(hasKey c kv.1))) k = getKey p k := by
  induction p with
  | nil => rfl
  | cons kv p ih =>
    by_cases h : kv.1 = k
    · have hkv : hasKey c kv.1 = false := by rw [h]; exact hc
      rw [List.filter_cons_of_pos (by simp [hkv]), getKey_cons_of_eq kv _ k h,
        getKey_cons_of_eq kv p k h]
    · cases hkv : hasKey c kv.1
      · rw [List.filter_cons_of_pos (by simp [hkv]), getKey_cons_of_ne kv _ k h,
          getKey_cons_of_ne kv p k h, ih]
      · rw [List.filter_cons_of_neg (by simp [hkv]), getKey_cons_of_ne kv p k h, ih]

/-- Shallow-merge semantics of JavaScript spread: looking up a key in
`{...c, ...p}` gives `p`'s value when `p` has the key and `c`'s value
otherwise. -/
theorem getKey_mergeCtx {V : Type} (c p : Ctx V) (k : String) :
    getKey (mergeCtx c p) k =
      if hasKey p k then getKey p k else getKey c k := by
  rw [mergeCtx, getKey_append, hasKey_map_override, getKey_map_override]
  cases hc : getKey c k with
  | some v =>
    have hck : hasKey c k = true := by rw [hasKey_eq_isSome, hc]; rfl
    rw [if_pos hck]
    cases hp : getKey p k with
    | some w =>
      have hpk : hasKey p k = true := by rw [hasKey_eq_isSome, hp]; rfl
      rw [if_pos hpk]
      show some ((override p (k, v)).2) = some w
      rw [override_snd_of_some p (k, v) hp]
    | none =>
      have hpk : hasKey p k = false := by rw [hasKey_eq_isSome, hp]; rfl
      rw [if_neg (by simp [hpk])]
      show some ((override p (k, v)).2) = some v
      rw [override_snd_of_none p (k, v) hp]
  | none =>
    have hck : hasKey c k = false := by rw [hasKey_eq_isSome, hc]; rfl
    rw [if_neg (by simp [hck]), getKey_filter_not_hasKey c p k hck]
    cases hp : getKey p k with
    | some w =>
      have hpk : hasKey p k = true := by rw [hasKey_eq_isSome, hp]; rfl
      rw [if_pos hpk]
    | none =>
      have hpk : hasKey p k = false := by rw [hasKey_eq_isSome, hp]; rfl
      rw [if_neg (by simp [hpk])]

/-! ## Helper lemmas about validation -/

theorem includes_iff {T : Type} [DecidableEq T] (xs : List T) (x : T) :
    includes xs x = true ↔ x ∈ xs := by
  simp [includes, List.any_eq_true]

theorem noTransition_eq_false_iff {T V : Type} [DecidableEq T]
    (m : StatelyMachine T V) (t : T) :
    noTransition m t = false ↔
      ∃ r ∈ m.transitions, m.active ∈ r.«from» ∧ t ∈ r.«to» := by
  simp [noTransition, List.any_eq_true, List.mem_filter, includes_iff,
    and_assoc]

theorem noTransition_eq_true_iff {T V : Type} [DecidableEq T]
    (m : StatelyMachine T V) (t : T) :
    noTransition m t = true ↔
      ¬∃ r ∈ m.transitions, m.active ∈ r.«from» ∧ t ∈ r.«to» := by
  rw [← noTransition_eq_false_iff]
  cases noTransition m t <;> simp

theorem transitions_ne_nil_of_length {T V : Type} (m : StatelyMachine T V)
    (h : ¬m.transitions.length = 0) : m.transitions ≠ [] := by
  intro hnil
  exact h (by rw [hnil]; rfl)

theorem validate_eq_empty_iff {T V : Type} [DecidableEq T]
    (m : StatelyMachine T V) (t : T) :
    validate m t = .error .EMPTY_TRANSITIONS ↔ m.transitions = [] := by
  by_cases h1 : m.transitions.length = 0
  · simp [validate, h1, List.length_eq_zero.mp h1]
  · have hne := transitions_ne_nil_of_length m h1
    by_cases h2 : m.active = t
    · simp [validate, h1, h2, hne]
    · cases h3 : noTransition m t <;> simp [validate, h1, h2, h3, hne]

theorem validate_eq_same_iff {T V : Type} [DecidableEq T]
    (m : StatelyMachine T V) (t : T) :
    validate m t = .error .SAME_STATE ↔ m.transitions ≠ [] ∧ m.active = t := by
  by_cases h1 : m.transitions.length = 0
  · simp [validate, h1, List.length_eq_zero.mp h1]
  · have hne := transitions_ne_nil_of_length m h1
    by_cases h2 : m.active = t
    · simp [validate, h1, h2, hne]
    · cases h3 : noTransition m t <;> simp [validate, h1, h2, h3, hne]

theorem validate_eq_no_iff {T V : Type} [DecidableEq T]
    (m : StatelyMachine T V) (t : T) :
    validate m t = .error .NO_TRANSITION ↔
      m.transitions ≠ [] ∧ m.active ≠ t ∧
        ¬∃ r ∈ m.transitions, m.active ∈ r.«from» ∧ t ∈ r.«to» := by
  by_cases h1 : m.transitions.length = 0
  · simp [validate, h1, List.length_eq_zero.mp h1]
  · have hne := transitions_ne_nil_of_length m h1
    by_cases h2 : m.active = t
    · simp [validate, h1, h2, hne]
    · cases h3 : noTransition m t
      · have hex := (noTransition_eq_false_iff m t).mp h3
        simp [validate, h1, h2, h3, hne, hex]
      · have hex := (noTransition_eq_true_iff m t).mp h3
        simp [validate, h1, h2, h3, hne, hex]

theorem validate_eq_ok_iff {T V : Type} [DecidableEq T]
    (m : StatelyMachine T V) (t : T) :
    validate m t = .ok t ↔
      m.transitions ≠ [] ∧ m.active ≠ t ∧
        ∃ r ∈ m.transitions, m.active ∈ r.«from» ∧ t ∈ r.«to» := by
  by_cases h1 : m.transitions.length = 0
  · simp [validate, h1, List.length_eq_zero.mp h1]
  · have hne := transitions_ne_nil_of_length m h1
    by_cases h2 : m.active = t
    · simp [validate, h1, h2, hne]
    · cases h3 : noTransition m t
      · have hex := (noTransition_eq_false_iff m t).mp h3
        simp [validate, h1, h2, h3, hne, hex]
      · have hex := (noTransition_eq_true_iff m t).mp h3
        simp [validate, h1, h2, h3, hne, hex]

theorem noTransition_ext {T V : Type} [DecidableEq T]
    (m m' : StatelyMachine T V) (t : T) (ha : m.active = m'.active)
    (h : ∀ r, r ∈ m.transitions ↔ r ∈ m'.transitions) :
    noTransition m t = noTransition m' t := by
  cases h1 : noTransition m t <;> cases h2 : noTransition m' t <;> try rfl
  · obtain ⟨r, hr, h3, h4⟩ := (noTransition_eq_false_iff m t).mp h1
    have h5 : noTransition m' t = false :=
      (noTransition_eq_false_iff m' t).mpr ⟨r, (h r).mp hr, ha ▸ h3, h4⟩
    rw [h5] at h2
    cases h2
  · obtain ⟨r, hr, h3, h4⟩ := (noTransition_eq_false_iff m' t).mp h2
    have h5 : noTransition m t = false :=
      (noTransition_eq_false_iff m t).mpr ⟨r, (h r).mpr hr, ha.symm ▸ h3, h4⟩
    rw [h5] at h1
    cases h1

theorem validate_perm {T V : Type} [DecidableEq T] (m : StatelyMachine T V)
    (l : List (StatelyTransition T)) (t : T) (h : m.transitions.Perm l) :
    validate { m with transitions := l } t = validate m t := by
  have hlen : l.length = m.transitions.length := h.symm.length_eq
  have hnt : noTransition { m with transitions := l } t = noTransition m t :=
    noTransition_ext _ m t rfl (fun r => by
      show r ∈ l ↔ r ∈ m.transitions
      exact h.symm.mem_iff)
  show (if l.length = 0 then _ else _) = _
  rw [validate, hlen, hnt]

/-! ## Helper lemmas about configuration and dispatch -/

theorem foldl_setTransitions_active {T V : Type}
    (cs : List (List (StatelyTransition T))) (m : StatelyMachine T V) :
    (cs.foldl setTransitions m).active = m.active := by
  induction cs generalizing m with
  | nil => rfl
  | cons c cs ih => exact ih (setTransitions m c)

theorem foldl_setTransitions_context {T V : Type}
    (cs : List (List (StatelyTransition T))) (m : StatelyMachine T V) :
    (cs.foldl setTransitions m).context = m.context := by
  induction cs generalizing m with
  | nil => rfl
  | cons c cs ih => exact ih (setTransitions m c)

theorem publish_sub_mem {T V : Type} (chs : Channels) (r : GoResult T V)
    (d : Delivery T V) (hd : d ∈ publish chs r) :
    d.sub ∈ chs.successSubs ∨ d.sub ∈ chs.errorSubs := by
  rw [publish, List.mem_append] at hd
  rcases hd with h | h
  · rw [List.mem_flatMap] at h
    obtain ⟨e, he, hx⟩ := h
    rw [List.mem_map] at hx
    obtain ⟨s, hs, rfl⟩ := hx
    exact Or.inl hs
  · rw [List.mem_flatMap] at h
    obtain ⟨e, he, hx⟩ := h
    rw [List.mem_map] at hx
    obtain ⟨s, hs, rfl⟩ := hx
    exact Or.inr hs

theorem step_not_subscribed {T V : Type} [DecidableEq T] (sys : System T V)
    (op : Op T V) (j : Nat)
    (hjs : j ∉ sys.channels.successSubs) (hje : j ∉ sys.channels.errorSubs)
    (hop : op ≠ Op.subscribeSuccess j ∧ op ≠ Op.subscribeError j) :
    j ∉ (step sys op).1.channels.successSubs ∧
      j ∉ (step sys op).1.channels.errorSubs := by
  cases op with
  | subscribeSuccess s =>
    have hs : s ≠ j := fun h => hop.1 (by rw [h])
    constructor
    · show j ∉ sys.channels.successSubs ++ [s]
      simp [List.mem_append, hjs]
      exact fun h => hs h.symm
    · exact hje
  | subscribeError s =>
    have hs : s ≠ j := fun h => hop.2 (by rw [h])
    constructor
    · exact hjs
    · show j ∉ sys.channels.errorSubs ++ [s]
      simp [List.mem_append, hje]
      exact fun h => hs h.symm
  | goOp t p => exact ⟨hjs, hje⟩

theorem run_no_mention {T V : Type} [DecidableEq T] (ops : List (Op T V))
    (sys : System T V) (j : Nat)
    (hjs : j ∉ sys.channels.successSubs) (hje : j ∉ sys.channels.errorSubs)
    (hops : ∀ op ∈ ops, op ≠ Op.subscribeSuccess j ∧ op ≠ Op.subscribeError j) :
    ∀ ds ∈ run sys ops, ∀ d ∈ ds, d.sub ≠ j := by
  induction ops generalizing sys with
  | nil =>
    intro ds hds
    simp [run] at hds
  | cons op rest ih =>
    intro ds hds d hd
    rw [run] at hds
    rcases List.mem_cons.mp hds with h | h
    · subst h
      cases op with
      | subscribeSuccess s => simp [step] at hd
      | subscribeError s => simp [step] at hd
      | goOp t p =>
        have hmem := publish_sub_mem sys.channels (go sys.machine t p) d hd
        rcases hmem with hm | hm
        · exact fun hcon => hjs (hcon ▸ hm)
        · exact fun hcon => hje (hcon ▸ hm)
    · have hop := hops op (List.mem_cons_self op rest)
      have hpres := step_not_subscribed sys op j hjs hje hop
      exact ih (step sys op).1 hpres.1 hpres.2
        (fun o ho => hops o (List.mem_cons_of_mem op ho)) ds h d hd

/-! ## Claim theorems -/

/-- C10: an engine constructed with initial state `s` and no initial-context
argument starts with state accessor `s`, the empty context and an empty
transition table; when an initial context `c` is supplied, the context
accessor returns exactly `c`. -/
theorem constructor_initial {T V : Type} (s : T) (c : Ctx V) :
    (mk s : StatelyMachine T V).active = s ∧
    (mk s : StatelyMachine T V).context = [] ∧
    (mk s : StatelyMachine T V).transitions = [] ∧
    (mk s c).active = s ∧ (mk s c).context = c ∧ (mk s c).transitions = [] :=
  ⟨rfl, rfl, rfl, rfl, rfl, rfl⟩

/-- C9: after any sequence of `transitions(rules)` calls followed by a call
with rule list `c`, the stored table is exactly `c` (wholesale replacement,
last call wins, no merging and no alteration), and the active state and the
context are unchanged from before all those calls. -/
theorem transitions_replace_wholesale {T V : Type} (m : StatelyMachine T V)
    (cs : List (List (StatelyTransition T))) (c : List (StatelyTransition T)) :
    (setTransitions (cs.foldl setTransitions m) c).transitions = c ∧
    (setTransitions (cs.foldl setTransitions m) c).active = m.active ∧
    (setTransitions (cs.foldl setTransitions m) c).context = m.context :=
  ⟨rfl, foldl_setTransitions_active cs m, foldl_setTransitions_context cs m⟩

/-- C3: `#validate` applies exactly three checks in strict order with
first-match-wins short-circuit — empty table, then same state, then no
connecting rule, otherwise valid — so the three error kinds are mutually
exclusive for any single attempt. -/
theorem validate_strict_order {T V : Type} [DecidableEq T]
    (m : StatelyMachine T V) (t : T) :
    (validate m t = .error .EMPTY_TRANSITIONS ↔ m.transitions = []) ∧
    (validate m t = .error .SAME_STATE ↔ m.transitions ≠ [] ∧ m.active = t) ∧
    (validate m t = .error .NO_TRANSITION ↔
      m.transitions ≠ [] ∧ m.active ≠ t ∧
        ¬∃ r ∈ m.transitions, m.active ∈ r.«from» ∧ t ∈ r.«to») ∧
    (validate m t = .ok t ↔
      m.transitions ≠ [] ∧ m.active ≠ t ∧
        ∃ r ∈ m.transitions, m.active ∈ r.«from» ∧ t ∈ r.«to») :=
  ⟨validate_eq_empty_iff m t, validate_eq_same_iff m t,
    validate_eq_no_iff m t, validate_eq_ok_iff m t⟩

/-- C4: with an empty transition table, every `go(t, p)` — including
`t` equal to the current state — publishes exactly one `EMPTY_TRANSITIONS`
error with the current state as `from` and `t` as `to`, publishes no success
event, and leaves the machine (state, context and table) unmodified. -/
theorem go_empty_transitions {T V : Type} [DecidableEq T]
    (m : StatelyMachine T V) (t : T) (p : Ctx V) (h : m.transitions = []) :
    go m t p =
      { machine := m, successes := [],
        errors := [{ type := .EMPTY_TRANSITIONS, «from» := m.active, «to» := t }] } := by
  have hv : validate m t = .error .EMPTY_TRANSITIONS :=
    (validate_eq_empty_iff m t).mpr h
  simp [go, hv]

/-- C4 witness: the freshly constructed machine rejects even a self-targeted
`go` with `EMPTY_TRANSITIONS`. -/
theorem go_empty_transitions_witness :
    (mk 0 : StatelyMachine Nat Nat).transitions = [] ∧
    go (mk 0 : StatelyMachine Nat Nat) 0 [] =
      { machine := mk 0, successes := [],
        errors := [{ type := .EMPTY_TRANSITIONS, «from» := 0, «to» := 0 }] } :=
  ⟨rfl, go_empty_transitions (mk 0) 0 [] rfl⟩

/-- C6: with a non-empty transition table, `go` targeted at the current
active state publishes exactly one `SAME_STATE` error and leaves the machine
unmodified, regardless of the table's contents. -/
theorem go_same_state {T V : Type} [DecidableEq T] (m : StatelyMachine T V)
    (p : Ctx V) (h : m.transitions ≠ []) :
    go m m.active p =
      { machine := m, successes := [],
        errors := [{ type := .SAME_STATE, «from» := m.active, «to» := m.active }] } := by
  have hv : validate m m.active = .error .SAME_STATE :=
    (validate_eq_same_iff m m.active).mpr ⟨h, rfl⟩
  simp [go, hv]

/-- C6 witness: a rule whose `from` and `to` both contain the active state
does not make a self-transition succeed. -/
theorem go_same_state_witness :
    (⟨[], 0, [⟨[0], [0]⟩]⟩ : StatelyMachine Nat Nat).transitions ≠ [] ∧
    go (⟨[], 0, [⟨[0], [0]⟩]⟩ : StatelyMachine Nat Nat) 0 [] =
      { machine := ⟨[], 0, [⟨[0], [0]⟩]⟩, successes := [],
        errors := [{ type := .SAME_STATE, «from» := 0, «to» := 0 }] } :=
  ⟨by simp, go_same_state (⟨[], 0, [⟨[0], [0]⟩]⟩ : StatelyMachine Nat Nat) [] (by simp)⟩

/-- C2: whenever validation fails with kind `k`, `go(t, p)` publishes exactly
one error event `{type: k, from: current state, to: t}`, publishes no success
event, and leaves the state, the context and the transition table unmodified;
`go` is a total function, so no exception reaches the caller. -/
theorem go_error_spec {T V : Type} [DecidableEq T] (m : StatelyMachine T V)
    (t : T) (p : Ctx V) (k : StatelyErrorType)
    (h : validate m t = .error k) :
    go m t p =
      { machine := m, successes := [],
        errors := [{ type := k, «from» := m.active, «to» := t }] } := by
  simp [go, h]

/-- C2 witness: a target not connected to the active state yields exactly one
`NO_TRANSITION` error and no change. -/
theorem go_error_spec_witness :
    validate (⟨[], 0, [⟨[0], [1]⟩]⟩ : StatelyMachine Nat Nat) 2 =
      .error .NO_TRANSITION ∧
    go (⟨[], 0, [⟨[0], [1]⟩]⟩ : StatelyMachine Nat Nat) 2 [] =
      { machine := ⟨[], 0, [⟨[0], [1]⟩]⟩, successes := [],
        errors := [{ type := .NO_TRANSITION, «from» := 0, «to» := 2 }] } :=
  ⟨rfl, go_error_spec (⟨[], 0, [⟨[0], [1]⟩]⟩ : StatelyMachine Nat Nat) 2 [] .NO_TRANSITION rfl⟩

/-- C1: with a non-empty table, a target distinct from the current state and
a rule connecting the current state to it, `go(t, p)` sets the context to the
shallow merge of the old context with `p` (keys of `p` winning, absent keys
of `p` leaving old entries unchanged), sets the active state to `t`, and
publishes exactly one success event `{from: previous state, to: t, context:
merged context}` and no error event. -/
theorem go_success_spec {T V : Type} [DecidableEq T] (m : StatelyMachine T V)
    (t : T) (p : Ctx V) (hne : m.transitions ≠ []) (hd : t ≠ m.active)
    (hr : ∃ r ∈ m.transitions, m.active ∈ r.«from» ∧ t ∈ r.«to») :
    (go m t p).machine.active = t ∧
    (go m t p).machine.context = mergeCtx m.context p ∧
    (∀ k, getKey (go m t p).machine.context k =
      if hasKey p k then getKey p k else getKey m.context k) ∧
    (go m t p).successes =
      [{ context := mergeCtx m.context p, «from» := m.active, «to» := t }] ∧
    (go m t p).errors = [] := by
  have hv : validate m t = .ok t :=
    (validate_eq_ok_iff m t).mpr ⟨hne, fun h => hd h.symm, hr⟩
  refine ⟨?_, ?_, fun k => ?_, ?_, ?_⟩ <;> simp [go, hv, getKey_mergeCtx]

/-- C1 witness: the spec's merge example `{a:1,b:2}` with partial `{b:3,c:4}`
on a permitted transition. -/
theorem go_success_spec_witness :
    (go (⟨[("a", 1), ("b", 2)], 0, [⟨[0], [1]⟩]⟩ : StatelyMachine Nat Nat)
        1 [("b", 3), ("c", 4)]).machine.active = 1 ∧
    (go (⟨[("a", 1), ("b", 2)], 0, [⟨[0], [1]⟩]⟩ : StatelyMachine Nat Nat)
        1 [("b", 3), ("c", 4)]).machine.context =
      mergeCtx [("a", 1), ("b", 2)] [("b", 3), ("c", 4)] ∧
    (∀ k, getKey (go (⟨[("a", 1), ("b", 2)], 0, [⟨[0], [1]⟩]⟩ : StatelyMachine Nat Nat)
        1 [("b", 3), ("c", 4)]).machine.context k =
      if hasKey [("b", 3), ("c", 4)] k then getKey [("b", 3), ("c", 4)] k
      else getKey [("a", 1), ("b", 2)] k) ∧
    (go (⟨[("a", 1), ("b", 2)], 0, [⟨[0], [1]⟩]⟩ : StatelyMachine Nat Nat)
        1 [("b", 3), ("c", 4)]).successes =
      [{ context := mergeCtx [("a", 1), ("b", 2)] [("b", 3), ("c", 4)],
         «from» := 0, «to» := 1 }] ∧
    (go (⟨[("a", 1), ("b", 2)], 0, [⟨[0], [1]⟩]⟩ : StatelyMachine Nat Nat)
        1 [("b", 3), ("c", 4)]).errors = [] :=
  go_success_spec (⟨[("a", 1), ("b", 2)], 0, [⟨[0], [1]⟩]⟩ : StatelyMachine Nat Nat)
    1 [("b", 3), ("c", 4)] (by simp) (by decide)
    ⟨⟨[0], [1]⟩, by simp, by decide, by decide⟩

/-- C5: with a non-empty table and a target distinct from the current state,
the transition is permitted exactly when some rule's `from` contains the
current state and its `to` contains the target, and otherwise the outcome is
a `NO_TRANSITION` error; permuting the rule list never changes the outcome
of validation. -/
theorem lookup_existence_and_perm {T V : Type} [DecidableEq T]
    (m : StatelyMachine T V) (t : T) (hne : m.transitions ≠ [])
    (hd : m.active ≠ t) :
    (validate m t = .ok t ↔
      ∃ r ∈ m.transitions, m.active ∈ r.«from» ∧ t ∈ r.«to») ∧
    (validate m t = .error .NO_TRANSITION ↔
      ¬∃ r ∈ m.transitions, m.active ∈ r.«from» ∧ t ∈ r.«to») ∧
    (∀ l, m.transitions.Perm l →
      validate { m with transitions := l } t = validate m t) := by
  refine ⟨?_, ?_, fun l hp => validate_perm m l t hp⟩
  · rw [validate_eq_ok_iff]
    simp [hne, hd]
  · rw [validate_eq_no_iff]
    simp [hne, hd]

/-- C5 witness: a two-rule table permits `0 → 1`, and swapping the two rules
leaves the outcome unchanged. -/
theorem lookup_existence_and_perm_witness :
    validate (⟨[], 0, [⟨[0], [1]⟩, ⟨[1], [0]⟩]⟩ : StatelyMachine Nat Nat) 1 =
      .ok 1 ∧
    validate (⟨[], 0, [⟨[1], [0]⟩, ⟨[0], [1]⟩]⟩ : StatelyMachine Nat Nat) 1 =
      validate (⟨[], 0, [⟨[0], [1]⟩, ⟨[1], [0]⟩]⟩ : StatelyMachine Nat Nat) 1 :=
  ⟨(lookup_existence_and_perm
      (⟨[], 0, [⟨[0], [1]⟩, ⟨[1], [0]⟩]⟩ : StatelyMachine Nat Nat) 1
      (by simp) (by decide)).1.mpr ⟨⟨[0], [1]⟩, by simp, by decide, by decide⟩,
    (lookup_existence_and_perm
      (⟨[], 0, [⟨[0], [1]⟩, ⟨[1], [0]⟩]⟩ : StatelyMachine Nat Nat) 1
      (by simp) (by decide)).2.2 [⟨[1], [0]⟩, ⟨[0], [1]⟩]
      (List.Perm.swap _ _ _)⟩

/-- C7: the filtered success stream for state `s` emits exactly the events of
the unfiltered stream whose `to` equals `s`, as an order-preserving sublist,
and the filtered error stream for kind `k` emits exactly the events of the
unfiltered error stream whose `type` equals `k`. -/
theorem filtered_streams_spec {T V : Type} [DecidableEq T] (s : T)
    (k : StatelyErrorType) (es : List (StatelySuccess T V))
    (errs : List (StatelyError T)) :
    (∀ e, e ∈ onFilter s es ↔ e ∈ es ∧ e.«to» = s) ∧
    (onFilter s es).Sublist es ∧
    (∀ e, e ∈ onErrorFilter k errs ↔ e ∈ errs ∧ e.type = k) ∧
    (onErrorFilter k errs).Sublist errs := by
  refine ⟨fun e => ?_, ?_, fun e => ?_, ?_⟩
  · simp [onFilter, List.mem_filter]
  · unfold onFilter
    exact List.filter_sublist _
  · simp [onErrorFilter, List.mem_filter]
  · unfold onErrorFilter
    exact List.filter_sublist _

/-- C8: a `go` call publishes exactly one outcome event, delivered within the
call to exactly the subscribers registered at publish time; the channels are
hot — over any run of operations, a subscriber that is never registered
before or during the run receives nothing, so subscribing after an event
never replays it. -/
theorem event_delivery_sync_hot {T V : Type} [DecidableEq T]
    (sys : System T V) (t : T) (p : Ctx V) (ops : List (Op T V)) (j : Nat)
    (hjs : j ∉ sys.channels.successSubs) (hje : j ∉ sys.channels.errorSubs)
    (hops : ∀ op ∈ ops, op ≠ Op.subscribeSuccess j ∧ op ≠ Op.subscribeError j) :
    (go sys.machine t p).successes.length +
      (go sys.machine t p).errors.length = 1 ∧
    (∀ e ∈ (go sys.machine t p).successes, ∀ s ∈ sys.channels.successSubs,
      Delivery.success s e ∈ (step sys (.goOp t p)).2) ∧
    (∀ e ∈ (go sys.machine t p).errors, ∀ s ∈ sys.channels.errorSubs,
      Delivery.error s e ∈ (step sys (.goOp t p)).2) ∧
    (∀ d ∈ (step sys (.goOp t p)).2,
      d.sub ∈ sys.channels.successSubs ∨ d.sub ∈ sys.channels.errorSubs) ∧
    (∀ ds ∈ run sys ops, ∀ d ∈ ds, d.sub ≠ j) := by
  refine ⟨?_, ?_, ?_, ?_, run_no_mention ops sys j hjs hje hops⟩
  · cases hv : validate sys.machine t <;> simp [go, hv]
  · intro e he s hs
    show Delivery.success s e ∈ publish sys.channels (go sys.machine t p)
    rw [publish, List.mem_append]
    exact Or.inl (List.mem_flatMap.mpr ⟨e, he, List.mem_map.mpr ⟨s, hs, rfl⟩⟩)
  · intro e he s hs
    show Delivery.error s e ∈ publish sys.channels (go sys.machine t p)
    rw [publish, List.mem_append]
    exact Or.inr (List.mem_flatMap.mpr ⟨e, he, List.mem_map.mpr ⟨s, hs, rfl⟩⟩)
  · intro d hd
    exact publish_sub_mem sys.channels (go sys.machine t p) d hd

/-- C8 witness: a fresh system with no subscribers, one attempted `go`, and an
empty run for a never-subscribed observer. -/
theorem event_delivery_sync_hot_witness :
    (go (mk 0 : StatelyMachine Nat Nat) 1 []).successes.length +
      (go (mk 0 : StatelyMachine Nat Nat) 1 []).errors.length = 1 ∧
    (∀ e ∈ (go (mk 0 : StatelyMachine Nat Nat) 1 []).successes,
      ∀ s ∈ (⟨mk 0, ⟨[], []⟩⟩ : System Nat Nat).channels.successSubs,
        Delivery.success s e ∈ (step (⟨mk 0, ⟨[], []⟩⟩ : System Nat Nat) (.goOp 1 [])).2) ∧
    (∀ e ∈ (go (mk 0 : StatelyMachine Nat Nat) 1 []).errors,
      ∀ s ∈ (⟨mk 0, ⟨[], []⟩⟩ : System Nat Nat).channels.errorSubs,
        Delivery.error s e ∈ (step (⟨mk 0, ⟨[], []⟩⟩ : System Nat Nat) (.goOp 1 [])).2) ∧
    (∀ d ∈ (step (⟨mk 0, ⟨[], []⟩⟩ : System Nat Nat) (.goOp 1 [])).2,
      d.sub ∈ (⟨mk 0, ⟨[], []⟩⟩ : System Nat Nat).channels.successSubs ∨
        d.sub ∈ (⟨mk 0, ⟨[], []⟩⟩ : System Nat Nat).channels.errorSubs) ∧
    (∀ ds ∈ run (⟨mk 0, ⟨[], []⟩⟩ : System Nat Nat) [], ∀ d ∈ ds, d.sub ≠ 0) :=
  event_delivery_sync_hot (⟨mk 0, ⟨[], []⟩⟩ : System Nat Nat) 1 [] [] 0
    (by simp) (by simp) (by simp)

end Stately
